import Mathlib

/-!
Verification of the BombSquad `.bob`/`.cob` mesh codec
(`utils/blender/bob_plugin.py`) against its specification.

Modelling conventions (shallow embedding):
* Python floats are modelled as rationals (`ℚ`); the operations the codec
  performs on them (clamping, scaling, truncation, subtraction, squared
  distances) are exact on the inputs considered.
* `int(x)` in Python truncates toward zero; modelled by `itrunc`.
* Byte strings read by `struct.unpack` are modelled as `List ℕ`
  (each entry a byte value `< 256`).
* Byte strings produced by `struct.pack` are modelled as token lists
  (`Tok`): one token per packed field.  The real byte stream is a fixed
  injective function of this token stream, so "the emitted bytes are
  empty/equal" is equivalent to the token stream being empty/equal.
* `mathutils.Vector` subtraction and `.length < 0.01` comparisons are
  modelled on `ℚ` by comparing the squared Euclidean distance with
  `0.01² = 1/10000`, which is exactly equivalent for real vectors.
-/

/-- 3-component vector of rationals (models `mathutils.Vector` of size 3). -/
structure Vec3 where
  x : ℚ
  y : ℚ
  z : ℚ
deriving DecidableEq

/-- 2-component vector of rationals (models `mathutils.Vector` of size 2). -/
structure Vec2 where
  u : ℚ
  v : ℚ
deriving DecidableEq

/-- `clamp` from the source (`bob_plugin.py` line 71-74):
`return max(min(val, maximum), minimum)` with defaults `minimum=0, maximum=1`.
The `print` diagnostic has no effect on the value and is omitted. -/
def clamp (val : ℚ) (minimum : ℚ := 0) (maximum : ℚ := 1) : ℚ :=
  max (min val maximum) minimum

/-- Python `int()` truncation toward zero on a rational: with the
fraction in lowest terms and a positive denominator, truncating division
of numerator by denominator. -/
def itrunc (q : ℚ) : ℤ :=
  q.num.tdiv q.den

/-- The UV quantizer used by `save` (line 377): `int(clamp(u) * 65535)`.
The result is always in `0..65535`, hence returned as `ℕ`. -/
def quantUV (x : ℚ) : ℕ :=
  (itrunc (clamp x * 65535)).toNat

/-- The second UV word actually written by `save` (line 377):
`int((1 - clamp(uv[1])) * 65535)` — the quantizer composed with the
documented vertical V-flip. -/
def uvWordV (v : ℚ) : ℕ :=
  (itrunc ((1 - clamp v) * 65535)).toNat

/-- The normal quantizer used by `save` (line 380):
`int(clamp(n, -1, 1) * 32767)`. -/
def quantN (x : ℚ) : ℤ :=
  itrunc (clamp x (-1) 1 * 32767)

/-- Spec §4.1 `encodeUV`: per-component clamp to [0,1], scale by 65535,
truncate.  This is the quantizer of the source applied per component
(the source additionally composes the V-flip into the second written
word, see `uvWordV` and the lemma `uvWordV_eq_quant_flip`). -/
def encodeUV (u v : ℚ) : ℕ × ℕ :=
  (quantUV u, quantUV v)

/-- Spec §4.1 `encodeNormal`: per-component clamp to [-1,1], scale by
32767, truncate; exactly the map applied in `save` line 380. -/
def encodeNormal (x y z : ℚ) : ℤ × ℤ × ℤ :=
  (quantN x, quantN y, quantN z)

/-! ## Binary readers (`load`, `loadcob`)

`file.read(n)` followed by `struct.unpack` is modelled on a `List ℕ` of
byte values.  A short read makes `struct.unpack` raise (`Truncated`);
modelled by `Option`/`Except`.  All multi-byte fields are little-endian
(x86 native order, the only order the formats define). -/

/-- `file.read(n)`: the first `n` bytes and the remainder, or `none` if
fewer than `n` bytes are available. -/
def splitBytes (n : ℕ) (bs : List ℕ) : Option (List ℕ × List ℕ) :=
  match n, bs with
  | 0, bs => some ([], bs)
  | _ + 1, [] => none
  | n + 1, b :: rest =>
    match splitBytes n rest with
    | some (h, t) => some (b :: h, t)
    | none => none

/-- Little-endian value of a byte list. -/
def leVal (bs : List ℕ) : ℕ :=
  match bs with
  | [] => 0
  | b :: rest => b + 256 * leVal rest

/-- `readstruct("I")`: unsigned 32-bit little-endian. -/
def readU32 (bs : List ℕ) : Option (ℕ × List ℕ) :=
  match splitBytes 4 bs with
  | some (h, t) => some (leVal h, t)
  | none => none

/-- `struct.unpack("b", ...)`: one SIGNED byte, two's complement. -/
def sbyteVal (b : ℕ) : ℤ :=
  if b < 128 then (b : ℤ) else (b : ℤ) - 256

/-- Signed 16-bit value of an unsigned 16-bit word (`struct "h"`). -/
def i16Val (n : ℕ) : ℤ :=
  if n < 32768 then (n : ℤ) else (n : ℤ) - 65536

/-- Byte `i` of a byte list (lists are only indexed in range here). -/
def byteAt (bs : List ℕ) (i : ℕ) : ℕ := bs.getD i 0

/-- Little-endian 16-bit word at offset `i`. -/
def word16 (bs : List ℕ) (i : ℕ) : ℕ :=
  byteAt bs i + 256 * byteAt bs (i + 1)

/-- Little-endian 32-bit word at offset `i`. -/
def word32 (bs : List ℕ) (i : ℕ) : ℕ :=
  byteAt bs i + 256 * byteAt bs (i + 1) + 65536 * byteAt bs (i + 2) +
    16777216 * byteAt bs (i + 3)

/-- One decoded BOB vertex record (`load` lines 239-246).  Positions are
IEEE-754 bit patterns carried opaquely as their little-endian 32-bit
words (the codec never computes with them); UV and normal are the
dequantized rationals `word/65535` and `i16/32767` exactly as in the
source. -/
structure BobVertex where
  posBits : ℕ × ℕ × ℕ
  uv : ℚ × ℚ
  normal : ℚ × ℚ × ℚ
deriving DecidableEq

/-- `readstruct("fff HH hhh xx")` (24 bytes, offsets 0/4/8 floats,
12/14 u16 UV, 16/18/20 i16 normal, 22-23 padding) plus the dequantization
done by `load`. -/
def readVertex (bs : List ℕ) : Option (BobVertex × List ℕ) :=
  match splitBytes 24 bs with
  | some (h, t) =>
    some (⟨(word32 h 0, word32 h 4, word32 h 8),
           ((word16 h 12 : ℚ) / 65535, (word16 h 14 : ℚ) / 65535),
           ((i16Val (word16 h 16) : ℚ) / 32767, (i16Val (word16 h 18) : ℚ) / 32767,
            (i16Val (word16 h 20) : ℚ) / 32767)⟩, t)
  | none => none

/-- The vertex-reading loop of `load` (`for i in range(vertexCount)`). -/
def readVerts (n : ℕ) (bs : List ℕ) : Option (List BobVertex × List ℕ) :=
  match n with
  | 0 => some ([], bs)
  | n + 1 =>
    match readVertex bs with
    | some (v, t) =>
      match readVerts n t with
      | some (vs, t2) => some (v :: vs, t2)
      | none => none
    | none => none

/-- The index-reading loop of `load` (lines 248-254): `faceCount*3`
iterations, each reading one SIGNED byte (`"b"`) when `meshFormat = 0`
and one unsigned 16-bit word (`"H"`) when `meshFormat = 1`. -/
def readIndices (meshFormat : ℕ) (n : ℕ) (bs : List ℕ) : Option (List ℤ × List ℕ) :=
  match n with
  | 0 => some ([], bs)
  | n + 1 =>
    if meshFormat = 0 then
      match bs with
      | [] => none
      | b :: rest =>
        match readIndices meshFormat n rest with
        | some (is, t) => some (sbyteVal b :: is, t)
        | none => none
    else
      match splitBytes 2 bs with
      | some (h, rest) =>
        match readIndices meshFormat n rest with
        | some (is, t) => some ((leVal h : ℤ) :: is, t)
        | none => none
      | none => none

/-- Lines 256-257: indices grouped into consecutive triples
(`faces[i] = (indices[3i], indices[3i+1], indices[3i+2])`). -/
def groupTriples {α : Type} (l : List α) : List (α × α × α) :=
  match l with
  | a :: b :: c :: rest => (a, b, c) :: groupTriples rest
  | _ => []

/-- Read-path failures: `BadMagic` models the magic `assert` (line 225 /
398), `unsupportedFormat` the `assert meshFormat in [0, 1]` (line 227),
`truncated` a `struct.unpack` on a short read. -/
inductive RErr where
  | badMagic
  | unsupportedFormat
  | truncated
deriving DecidableEq

/-- The decoded BOB document: everything `load` extracts from the bytes
before handing it to the host (`bpy`) mesh constructor. -/
structure BobDoc where
  meshFormat : ℕ
  verts : List BobVertex
  faces : List (ℤ × ℤ × ℤ)
deriving DecidableEq

def BOB_FILE_ID : ℕ := 45623

def COB_FILE_ID : ℕ := 13466

/-- `load` (lines 211-288), the BOB decoder: magic check, format check,
counts, vertex records, indices, faces.  Trailing bytes are ignored, as
in the source (no EOF check). -/
def load (bs : List ℕ) : Except RErr BobDoc :=
  match readU32 bs with
  | none => .error .truncated
  | some (magic, bs) =>
    if magic = BOB_FILE_ID then
      match readU32 bs with
      | none => .error .truncated
      | some (meshFormat, bs) =>
        if meshFormat = 0 ∨ meshFormat = 1 then
          match readU32 bs with
          | none => .error .truncated
          | some (vertexCount, bs) =>
            match readU32 bs with
            | none => .error .truncated
            | some (faceCount, bs) =>
              match readVerts vertexCount bs with
              | none => .error .truncated
              | some (verts, bs) =>
                match readIndices meshFormat (faceCount * 3) bs with
                | none => .error .truncated
                | some (indices, _) =>
                  .ok ⟨meshFormat, verts, groupTriples indices⟩
        else .error .unsupportedFormat
    else .error .badMagic

/-- The COB position-reading loop (lines 408-411): `vertexCount` records
of 3 floats, carried as opaque 32-bit words. -/
def readPositions (n : ℕ) (bs : List ℕ) : Option (List (ℕ × ℕ × ℕ) × List ℕ) :=
  match n with
  | 0 => some ([], bs)
  | n + 1 =>
    match splitBytes 12 bs with
    | some (h, t) =>
      match readPositions n t with
      | some (ps, t2) => some ((word32 h 0, word32 h 4, word32 h 8) :: ps, t2)
      | none => none
    | none => none

/-- The COB index-reading loop (lines 413-414): `faceCount*3` unsigned
32-bit indices. -/
def readU32List (n : ℕ) (bs : List ℕ) : Option (List ℕ × List ℕ) :=
  match n with
  | 0 => some ([], bs)
  | n + 1 =>
    match readU32 bs with
    | some (v, t) =>
      match readU32List n t with
      | some (vs, t2) => some (v :: vs, t2)
      | none => none
    | none => none

/-- The decoded COB document: everything `loadcob` extracts from the
bytes.  Note: the source reads NO normal section — the struct has no
normal field because `loadcob` produces none. -/
structure CobDoc where
  posBits : List (ℕ × ℕ × ℕ)
  faces : List (ℕ × ℕ × ℕ)
deriving DecidableEq

/-- `loadcob` (lines 392-426), the COB decoder: magic check, counts,
positions, indices, faces.  It stops there: the per-face normal section
of the file format is never read. -/
def loadcob (bs : List ℕ) : Except RErr CobDoc :=
  match readU32 bs with
  | none => .error .truncated
  | some (magic, bs) =>
    if magic = COB_FILE_ID then
      match readU32 bs with
      | none => .error .truncated
      | some (vertexCount, bs) =>
        match readU32 bs with
        | none => .error .truncated
        | some (faceCount, bs) =>
          match readPositions vertexCount bs with
          | none => .error .truncated
          | some (ps, bs) =>
            match readU32List (faceCount * 3) bs with
            | none => .error .truncated
            | some (indices, _) =>
              .ok ⟨ps, groupTriples indices⟩
    else .error .badMagic

/-! ## C3: variant-0 indices are read as SIGNED bytes -/

/-- A 43-byte BOB file: magic 45623, meshFormat 0, vertexCount 1,
faceCount 1, one all-zero vertex record, then the three index bytes
`0, 0, 255`. -/
def c3bytes : List ℕ :=
  [55, 178, 0, 0] ++ [0, 0, 0, 0] ++ [1, 0, 0, 0] ++ [1, 0, 0, 0] ++
    List.replicate 24 0 ++ [0, 0, 255]

def c3verts : List BobVertex :=
  ((readVerts 1 (List.replicate 24 0 ++ [0, 0, 255])).getD ([], [])).1

def c3doc : BobDoc := ⟨0, c3verts, [(0, 0, -1)]⟩

/-! ## C4: COB decode never reads the normal section -/

/-- A 36-byte COB stream: magic 13466, vertexCount 1, faceCount 1, one
zero position, one zero face — and NO normal section at all. -/
def c4base : List ℕ :=
  [154, 52, 0, 0] ++ [1, 0, 0, 0] ++ [1, 0, 0, 0] ++
    List.replicate 12 0 ++ List.replicate 12 0

/-- 12 bytes that a per-face normal section for one face would occupy
(here the float bits of `(1.0, 0.0, 0.0)`). -/
def c4normals : List ℕ := [0, 0, 128, 63] ++ List.replicate 8 0

def c4doc : CobDoc := ⟨[(0, 0, 0)], [(0, 0, 0)]⟩

/-! ## Vertex Deduplication Engine (`Verts`, `Vert`, `vec_similar`)

The Python `Verts` class holds `_verts` and `_by_blender_index` as CLASS
attributes (lines 291-293): they are created once when the class object
is built and only ever mutated in place (`append`) by `get`, never
rebound.  `Verts()` therefore does NOT reset them — every instance, and
every `save` call in one session, shares the same two containers.  The
embedding makes that module-level state explicit: `Verts` is the state
record, `Verts.get` threads it, and `save` takes the state the previous
calls left (`emptyVerts` models a fresh interpreter session). -/

/-- Squared Euclidean distance of 3-vectors. -/
def distSq3 (a b : Vec3) : ℚ :=
  (a.x - b.x) ^ 2 + (a.y - b.y) ^ 2 + (a.z - b.z) ^ 2

/-- Squared Euclidean distance of 2-vectors. -/
def distSq2 (a b : Vec2) : ℚ :=
  (a.u - b.u) ^ 2 + (a.v - b.v) ^ 2

/-- `vec_similar` (line 314-315): `(v1 - v2).length < 0.01`, expressed
on the squared distance (`< 0.01² = 1/10000`), which is equivalent and
stays inside ℚ.  This is the 3-vector overload. -/
def vec_similar3 (v1 v2 : Vec3) : Bool :=
  decide (distSq3 v1 v2 < 1 / 10000)

/-- `vec_similar` applied to 2-vectors (UV). -/
def vec_similar2 (v1 v2 : Vec2) : Bool :=
  decide (distSq2 v1 v2 < 1 / 10000)

/-- `Vert` (lines 317-321): one deduplicated vertex candidate. -/
structure Vert where
  coords : Vec3
  normal : Vec3
  uv : Option Vec2
deriving DecidableEq

/-- `Vert.simmilar` (lines 323-328, source spelling kept): positions and
normals must be similar; the UV check applies only when BOTH verts carry
a UV (`if self.uv and other.uv`). -/
def Vert.simmilar (self other : Vert) : Bool :=
  vec_similar3 self.coords other.coords && vec_similar3 self.normal other.normal &&
    (match self.uv, other.uv with
     | some u1, some u2 => vec_similar2 u1 u2
     | _, _ => true)

/-- The `Verts` class state: `_verts` is the global vertex list (a
vertex's assigned index is its position here), `_by_blender_index` the
defaultdict from caller vertex index to the candidate vertices already
emitted for it (stored as positions into `_verts`). -/
structure Verts where
  _verts : List Vert
  _by_blender_index : List (ℕ × List ℕ)
deriving DecidableEq

def emptyVerts : Verts := ⟨[], []⟩

/-- `defaultdict(list)` lookup: the list stored at `k`, or `[]`. -/
def dget (m : List (ℕ × List ℕ)) (k : ℕ) : List ℕ :=
  match m with
  | [] => []
  | (k2, v) :: rest => if k2 = k then v else dget rest k

/-- `defaultdict(list)` in-place `self._by_blender_index[k].append(x)`. -/
def dappend (m : List (ℕ × List ℕ)) (k : ℕ) (x : ℕ) : List (ℕ × List ℕ) :=
  match m with
  | [] => [(k, [x])]
  | (k2, v) :: rest =>
    if k2 = k then (k2, v ++ [x]) :: rest else (k2, v) :: dappend rest k x

/-- The candidate scan of `Verts.get` (lines 297-299): the first
candidate (by list position, i.e. first-seen order) similar to `inst`. -/
def firstSim (inst : Vert) (verts : List Vert) (cands : List ℕ) : Option ℕ :=
  match cands with
  | [] => none
  | i :: rest =>
    match verts.get? i with
    | some other => if inst.simmilar other then some i else firstSim inst verts rest
    | none => firstSim inst verts rest

/-- `Verts.get` (lines 295-303): build the candidate `Vert`, scan the
candidates recorded for `blender_index`, reuse the first similar one;
otherwise append the new vert (its index = current `len(_verts)`) to
both containers.  Returns the updated state and the assigned index. -/
def Verts.get (s : Verts) (coords : Vec3) (normal : Vec3) (blender_index : ℕ)
    (uv : Option Vec2) : Verts × ℕ :=
  let inst : Vert := ⟨coords, normal, uv⟩
  match firstSim inst s._verts (dget s._by_blender_index blender_index) with
  | some i => (s, i)
  | none =>
    (⟨s._verts ++ [inst], dappend s._by_blender_index blender_index s._verts.length⟩,
      s._verts.length)

/-- One FaceCorner as handed to `verts.get` by `save` (line 362-364):
position, normal, the caller ("blender") vertex index, and the UV of the
face loop when the mesh has a UV layer. -/
structure Corner where
  co : Vec3
  normal : Vec3
  index : ℕ
  uv : Option Vec2
deriving DecidableEq

/-- `v = verts.get(coords=vert.co, normal=vert.normal, uv=uv, blender_index=vert.index)`. -/
def processCorner (s : Verts) (c : Corner) : Verts × ℕ :=
  Verts.get s c.co c.normal c.index c.uv

/-- The corner loop of `save` over one face (lines 361-365). -/
def processCorners (s : Verts) (cs : List Corner) : Verts × List ℕ :=
  match cs with
  | [] => (s, [])
  | c :: rest =>
    let p := processCorner s c
    let q := processCorners p.1 rest
    (q.1, p.2 :: q.2)

/-- The face loop of `save` (lines 360-366): every face's corners are
pushed through the engine in order; the per-face assigned indices are
collected. -/
def processFaces (s : Verts) (faces : List (List Corner)) : Verts × List (List ℕ) :=
  match faces with
  | [] => (s, [])
  | f :: rest =>
    let p := processCorners s f
    let q := processFaces p.1 rest
    (q.1, p.2 :: q.2)

/-! ## Writers (`save`, `savecob`)

`struct.pack` output is modelled at field granularity: one token per
packed field, written straight to the file as in the source (`writestruct`
calls `file.write` immediately; nothing is buffered or rolled back).
`struct.pack` range-checks its argument BEFORE any byte is produced:
`"H"` requires `0 ≤ n ≤ 65535`, `"I"` requires `0 ≤ n < 2^32`; a failing
pack raises and leaves the file with exactly the tokens written so far. -/

inductive Tok where
  | u32 (n : ℕ)
  | u16 (n : ℕ)
  | i16 (z : ℤ)
  | f32 (q : ℚ)
  | pad2
deriving DecidableEq

/-- Write-path failures: `malformedMesh` models the `assert len == 3`
(lines 385 / 456), `packRange` a `struct.error` from an out-of-range
`"H"`/`"I"` pack. -/
inductive WErr where
  | malformedMesh
  | packRange
deriving DecidableEq

/-- `writestruct('I', n)`: emit a u32 token, or fail leaving the file
unchanged if `n` does not fit. -/
def writeU32 (n : ℕ) (acc : List Tok) : List Tok × Option WErr :=
  if n < 2 ^ 32 then (acc ++ [Tok.u32 n], none) else (acc, some WErr.packRange)

/-- Sequence two write steps, stopping at the first error and keeping
the tokens already written. -/
def andThenW (r : List Tok × Option WErr) (f : List Tok → List Tok × Option WErr) :
    List Tok × Option WErr :=
  match r with
  | (acc, none) => f acc
  | (acc, some e) => (acc, some e)

/-- The vertex record written for one `Vert` (lines 373-382): 3 floats,
the two quantized UV words (`(0, 0)` when the vert carries no UV), the
three quantized normal words, 2 padding bytes.  All quantized values are
in range for their formats, so this record itself cannot fail. -/
def vertexTok (v : Vert) : List Tok :=
  [Tok.f32 v.coords.x, Tok.f32 v.coords.y, Tok.f32 v.coords.z] ++
    (match v.uv with
     | some uv => [Tok.u16 (quantUV uv.u), Tok.u16 (uvWordV uv.v)]
     | none => [Tok.u16 0, Tok.u16 0]) ++
    [Tok.i16 (quantN v.normal.x), Tok.i16 (quantN v.normal.y),
     Tok.i16 (quantN v.normal.z), Tok.pad2]

/-- `writestruct('H', vert.index)` for each vert of a face (386-387). -/
def writeFaceIdx (ids : List ℕ) (acc : List Tok) : List Tok × Option WErr :=
  match ids with
  | [] => (acc, none)
  | i :: rest =>
    if i ≤ 65535 then writeFaceIdx rest (acc ++ [Tok.u16 i])
    else (acc, some WErr.packRange)

/-- The face-writing loop of `save` (lines 384-387): assert the face has
exactly 3 verts, then write its three u16 indices. -/
def writeFaces (fs : List (List ℕ)) (acc : List Tok) : List Tok × Option WErr :=
  match fs with
  | [] => (acc, none)
  | f :: rest =>
    if f.length = 3 then
      match writeFaceIdx f acc with
      | (acc2, none) => writeFaces rest acc2
      | (acc2, some e) => (acc2, some e)
    else (acc, some WErr.malformedMesh)

/-- The mesh state `save` works on after the host conversions: the
tessellated face sizes (`mesh.tessfaces`, used only by the triangulation
guard on line 338) and the `bmesh` faces with per-corner data (lines
360-365).  In Blender these can differ (tessfaces are a tessellation of
the polygons), which is why both are carried. -/
structure SrcMesh where
  tessfaceSizes : List ℕ
  faces : List (List Corner)

/-- Result of a `save`: the tokens in the file, the error that aborted
the write (if any), and the final Dedup Engine state (the class-level
`Verts` containers after the call). -/
structure SaveResult where
  toks : List Tok
  err : Option WErr
  state : Verts

/-- `save` (lines 330-389), the BOB export.  `tri` is the external
triangulation collaborator (`bmesh.ops.triangulate` + `mesh.update`),
invoked exactly when the source's guard fires (line 338): when forced or
when any tessface is not a triangle.  `s0` is the Dedup Engine state at
entry — the accumulated class-attribute state (see the `Verts` comment);
a fresh session is `s0 = emptyVerts`.  Write order as in the source:
magic, format 1, (all faces are pushed through the engine first),
vertex count, face count, vertex records, then per-face indices. -/
def save (tri : SrcMesh → SrcMesh) (triangulate : Bool) (m0 : SrcMesh) (s0 : Verts) :
    SaveResult :=
  let m := if triangulate || m0.tessfaceSizes.any (fun k => k != 3) then tri m0 else m0
  let p := processFaces s0 m.faces
  let r :=
    andThenW (writeU32 BOB_FILE_ID []) (fun a =>
      andThenW (writeU32 1 a) (fun a =>
        andThenW (writeU32 p.1._verts.length a) (fun a =>
          andThenW (writeU32 p.2.length a) (fun a =>
            writeFaces p.2 (a ++ (p.1._verts.map vertexTok).flatten)))))
  ⟨r.1, r.2, p.1⟩

/-- One `mesh.tessfaces` entry as `savecob` uses it: the vertex index
list and the face normal. -/
structure CobFace where
  vertices : List ℕ
  normal : Vec3

/-- The mesh state `savecob` works on: `mesh.vertices` positions and
`mesh.tessfaces`. -/
structure CobMesh where
  vertices : List Vec3
  tessfaces : List CobFace

/-- `writestruct('I', vertid)` for each vert of a face (457-458). -/
def writeCobIdx (ids : List ℕ) (acc : List Tok) : List Tok × Option WErr :=
  match ids with
  | [] => (acc, none)
  | i :: rest =>
    if i < 2 ^ 32 then writeCobIdx rest (acc ++ [Tok.u32 i])
    else (acc, some WErr.packRange)

/-- The face-writing loop of `savecob` (lines 455-458). -/
def writeCobFaces (fs : List CobFace) (acc : List Tok) : List Tok × Option WErr :=
  match fs with
  | [] => (acc, none)
  | f :: rest =>
    if f.vertices.length = 3 then
      match writeCobIdx f.vertices acc with
      | (acc2, none) => writeCobFaces rest acc2
      | (acc2, some e) => (acc2, some e)
    else (acc, some WErr.malformedMesh)

/-- `savecob` (lines 429-463), the COB export: triangulation guard as in
`save`, then magic, vertex count, face count, positions, per-face
indices (asserting each face is a triangle), and per-face normals last
— the normals are only reached when every face passed. -/
def savecob (tri : CobMesh → CobMesh) (triangulate : Bool) (m0 : CobMesh) :
    List Tok × Option WErr :=
  let m := if triangulate || m0.tessfaces.any (fun f => f.vertices.length != 3) then tri m0
    else m0
  andThenW (writeU32 COB_FILE_ID []) (fun a =>
    andThenW (writeU32 m.vertices.length a) (fun a =>
      andThenW (writeU32 m.tessfaces.length a) (fun a =>
        andThenW (writeCobFaces m.tessfaces
            (a ++ (m.vertices.map (fun v => [Tok.f32 v.x, Tok.f32 v.y, Tok.f32 v.z])).flatten))
          (fun a =>
            (a ++ (m.tessfaces.map (fun f =>
              [Tok.f32 f.normal.x, Tok.f32 f.normal.y, Tok.f32 f.normal.z])).flatten,
              none)))))

/-! ## Dedup Engine invariants and lemmas -/

/-- Well-formedness of the engine state: every candidate id recorded in
the map is a valid position in `_verts`.  Holds for the empty state and
is preserved by `Verts.get`. -/
def WF (s : Verts) : Prop :=
  ∀ k i, i ∈ dget s._by_blender_index k → i < s._verts.length

/-- Candidate lists of distinct source indices are disjoint. -/
def Disj (s : Verts) : Prop :=
  ∀ k1 k2 i, i ∈ dget s._by_blender_index k1 → i ∈ dget s._by_blender_index k2 → k1 = k2

/-! ## C1: Dedup Engine state leaks across exports (class-attribute bug) -/

/-- The identity in place of the external triangulator: on the meshes
below the triangulation guard never fires, so it is never invoked. -/
def idTri : SrcMesh → SrcMesh := fun m => m

/-- First export: a triangle over the caller's vertices 0, 1, 2. -/
def meshA : SrcMesh :=
  ⟨[3], [[⟨⟨0, 0, 0⟩, ⟨0, 0, 1⟩, 0, none⟩, ⟨⟨1, 0, 0⟩, ⟨0, 0, 1⟩, 1, none⟩,
    ⟨⟨0, 1, 0⟩, ⟨0, 0, 1⟩, 2, none⟩]]⟩

/-- Second export: a different mesh whose face lies on its vertices
3, 4, 5 (a 6-vertex mesh using only its last three vertices). -/
def meshB : SrcMesh :=
  ⟨[3], [[⟨⟨5, 5, 5⟩, ⟨0, 0, 1⟩, 3, none⟩, ⟨⟨6, 5, 5⟩, ⟨0, 0, 1⟩, 4, none⟩,
    ⟨⟨5, 6, 5⟩, ⟨0, 0, 1⟩, 5, none⟩]]⟩

/-! ## C2: failed writes still commit bytes -/

/-- A bmesh face with five corners (a pentagon) whose tessellation
consists of three triangles: the tessface sizes are all 3, so the
automatic triangulation guard does NOT fire, yet the bmesh face reaching
the face-writing loop has 5 vertices. -/
def meshP : SrcMesh :=
  ⟨[3, 3, 3], [[⟨⟨0, 0, 0⟩, ⟨0, 0, 1⟩, 0, none⟩, ⟨⟨1, 0, 0⟩, ⟨0, 0, 1⟩, 1, none⟩,
    ⟨⟨2, 1, 0⟩, ⟨0, 0, 1⟩, 2, none⟩, ⟨⟨1, 2, 0⟩, ⟨0, 0, 1⟩, 3, none⟩,
    ⟨⟨0, 1, 0⟩, ⟨0, 0, 1⟩, 4, none⟩]]⟩

/-- A bmesh quad face whose tessellation is two triangles — again the
guard sees only triangles while the written face has 4 corners. -/
def meshQ : SrcMesh :=
  ⟨[3, 3], [[⟨⟨0, 0, 0⟩, ⟨0, 0, 1⟩, 0, none⟩, ⟨⟨1, 0, 0⟩, ⟨0, 0, 1⟩, 1, none⟩,
    ⟨⟨1, 1, 0⟩, ⟨0, 0, 1⟩, 2, none⟩, ⟨⟨0, 1, 0⟩, ⟨0, 0, 1⟩, 3, none⟩]]⟩

/-! ## C6: a quad triggers automatic triangulation, not MalformedMesh -/

/-- Helper of the fan triangulation below. -/
def fanAux (v0 vprev : ℕ) (rest : List ℕ) (n : Vec3) : List CobFace :=
  match rest with
  | [] => []
  | v :: rest2 => ⟨[v0, vprev, v], n⟩ :: fanAux v0 v rest2 n

/-- Fan-triangulate one face. -/
def fanFace (f : CobFace) : List CobFace :=
  match f.vertices with
  | v0 :: v1 :: rest => fanAux v0 v1 rest f.normal
  | _ => [f]

/-- A concrete instance of the EXTERNAL triangulation collaborator
(`bmesh.ops.triangulate` + `mesh.update`, spec §4.5): fan triangulation
of every face.  The collaborator is host code, not part of this
repository; any function meeting its all-triangles postcondition fits. -/
def fanTri (m : CobMesh) : CobMesh :=
  ⟨m.vertices, (m.tessfaces.map fanFace).flatten⟩

/-- A mesh whose single tessface is a quad. -/
def quadMesh : CobMesh :=
  ⟨[⟨0, 0, 0⟩, ⟨1, 0, 0⟩, ⟨1, 1, 0⟩, ⟨0, 1, 0⟩], [⟨[0, 1, 2, 3], ⟨0, 0, 1⟩⟩]⟩

/-! ## C7/C8 witnesses -/

def cornerW : Corner := ⟨⟨0, 0, 0⟩, ⟨0, 0, 1⟩, 0, none⟩

def cornerX : Corner := ⟨⟨0, 0, 0⟩, ⟨0, 0, 1⟩, 1, none⟩

/-! ## Theorems -/

theorem clamp_one_sub (v : ℚ) : 1 - clamp v = clamp (1 - v) := by
  unfold clamp
  rcases le_total v 0 with h | h <;> rcases le_total v 1 with h1 | h1 <;>
    simp only [min_def, max_def] <;> split_ifs <;> linarith

theorem uvWordV_eq_quant_flip (v : ℚ) : uvWordV v = quantUV (1 - v) := by
  unfold uvWordV quantUV
  rw [clamp_one_sub]

/-- C5: the quantization satisfies the spec's concrete clamp examples:
`encodeUV(1.5, -0.2) = (65535, 0)` and
`encodeNormal(2.0, -2.0, 0.0) = (32767, -32767, 0)`; moreover the V word
the writer emits is this quantizer applied to the flipped V component. -/
theorem c5_quantization_examples :
    encodeUV (3/2) (-(1/5)) = (65535, 0) ∧
    encodeNormal 2 (-2) 0 = (32767, -32767, 0) ∧
    ∀ v : ℚ, uvWordV v = quantUV (1 - v) := by
  refine ⟨?_, ?_, uvWordV_eq_quant_flip⟩ <;>
    norm_num [encodeUV, encodeNormal, quantUV, quantN, itrunc, clamp,
      min_def, max_def, Int.tdiv] <;> decide

/-! ## Reader lemmas -/

theorem splitBytes_take_drop (n : ℕ) (bs : List ℕ) (h : n ≤ bs.length) :
    splitBytes n bs = some (bs.take n, bs.drop n) := by
  induction n generalizing bs with
  | zero => simp [splitBytes]
  | succ n ih =>
    cases bs with
    | nil => simp at h
    | cons b rest =>
      simp only [List.length_cons, Nat.succ_le_succ_iff] at h
      simp [splitBytes, ih rest h]

theorem splitBytes_eq_take_drop (n : ℕ) (bs h t : List ℕ)
    (heq : splitBytes n bs = some (h, t)) : h = bs.take n ∧ t = bs.drop n := by
  induction n generalizing bs h t with
  | zero =>
    simp only [splitBytes, Option.some.injEq, Prod.mk.injEq] at heq
    simp [← heq.1, ← heq.2]
  | succ n ih =>
    cases bs with
    | nil => simp [splitBytes] at heq
    | cons b rest =>
      simp only [splitBytes] at heq
      cases h2 : splitBytes n rest with
      | none => rw [h2] at heq; cases heq
      | some p =>
        rw [h2] at heq
        obtain ⟨hh, tt⟩ := p
        simp only [Option.some.injEq, Prod.mk.injEq] at heq
        obtain ⟨rfl, rfl⟩ := heq
        obtain ⟨rfl, rfl⟩ := ih rest hh tt h2
        simp

theorem splitBytes_append (n : ℕ) (bs e h t : List ℕ)
    (heq : splitBytes n bs = some (h, t)) :
    splitBytes n (bs ++ e) = some (h, t ++ e) := by
  induction n generalizing bs h t with
  | zero =>
    simp only [splitBytes, Option.some.injEq, Prod.mk.injEq] at heq
    simp [splitBytes, heq.1, heq.2]
  | succ n ih =>
    cases bs with
    | nil => simp [splitBytes] at heq
    | cons b rest =>
      simp only [splitBytes] at heq ⊢
      cases h2 : splitBytes n rest with
      | none => rw [h2] at heq; cases heq
      | some p =>
        rw [h2] at heq
        obtain ⟨hh, tt⟩ := p
        simp only [Option.some.injEq, Prod.mk.injEq] at heq
        obtain ⟨rfl, rfl⟩ := heq
        simp [List.cons_append, ih rest hh tt h2]

theorem readU32_subset (bs : List ℕ) (v : ℕ) (rest : List ℕ)
    (h : readU32 bs = some (v, rest)) : rest ⊆ bs := by
  unfold readU32 at h
  cases h2 : splitBytes 4 bs with
  | none => rw [h2] at h; cases h
  | some p =>
    rw [h2] at h
    obtain ⟨hh, tt⟩ := p
    simp only [Option.some.injEq, Prod.mk.injEq] at h
    obtain ⟨-, rfl⟩ := h
    obtain ⟨-, rfl⟩ := splitBytes_eq_take_drop 4 bs hh tt h2
    exact List.drop_subset 4 bs

theorem readU32_append (bs e : List ℕ) (v : ℕ) (rest : List ℕ)
    (h : readU32 bs = some (v, rest)) : readU32 (bs ++ e) = some (v, rest ++ e) := by
  unfold readU32 at h ⊢
  cases h2 : splitBytes 4 bs with
  | none => rw [h2] at h; cases h
  | some p =>
    rw [h2] at h
    obtain ⟨hh, tt⟩ := p
    simp only [Option.some.injEq, Prod.mk.injEq] at h
    obtain ⟨rfl, rfl⟩ := h
    rw [splitBytes_append 4 bs e hh tt h2]

theorem readVertex_subset (bs : List ℕ) (v : BobVertex) (rest : List ℕ)
    (h : readVertex bs = some (v, rest)) : rest ⊆ bs := by
  unfold readVertex at h
  cases h2 : splitBytes 24 bs with
  | none => rw [h2] at h; cases h
  | some p =>
    rw [h2] at h
    obtain ⟨hh, tt⟩ := p
    simp only [Option.some.injEq, Prod.mk.injEq] at h
    obtain ⟨-, rfl⟩ := h
    obtain ⟨-, rfl⟩ := splitBytes_eq_take_drop 24 bs hh tt h2
    exact List.drop_subset 24 bs

theorem readVerts_subset (n : ℕ) (bs : List ℕ) (vs : List BobVertex) (rest : List ℕ)
    (h : readVerts n bs = some (vs, rest)) : rest ⊆ bs := by
  induction n generalizing bs vs rest with
  | zero =>
    simp only [readVerts, Option.some.injEq, Prod.mk.injEq] at h
    rw [← h.2]
    exact fun x hx => hx
  | succ n ih =>
    simp only [readVerts] at h
    cases h2 : readVertex bs with
    | none => rw [h2] at h; cases h
    | some p =>
      rw [h2] at h
      obtain ⟨v, t⟩ := p
      dsimp only at h
      cases h3 : readVerts n t with
      | none => rw [h3] at h; cases h
      | some q =>
        rw [h3] at h
        obtain ⟨vs2, t2⟩ := q
        simp only [Option.some.injEq, Prod.mk.injEq] at h
        obtain ⟨-, rfl⟩ := h
        exact (ih t vs2 t2 h3).trans (readVertex_subset bs v t h2)

theorem groupTriples_mem {α : Type} :
    ∀ (l : List α) (t : α × α × α), t ∈ groupTriples l →
      t.1 ∈ l ∧ t.2.1 ∈ l ∧ t.2.2 ∈ l
  | a :: b :: c :: rest, t, h => by
    simp only [groupTriples, List.mem_cons] at h
    rcases h with rfl | h
    · simp
    · have := groupTriples_mem rest t h
      simp only [List.mem_cons]
      tauto
  | [], t, h => by simp [groupTriples] at h
  | [_], t, h => by simp [groupTriples] at h
  | [_, _], t, h => by simp [groupTriples] at h

theorem readIndices0_range (n : ℕ) :
    ∀ (bs : List ℕ) (out : List ℤ) (rest : List ℕ),
      (∀ b ∈ bs, b < 256) → readIndices 0 n bs = some (out, rest) →
      ∀ i ∈ out, -128 ≤ i ∧ i ≤ 127 := by
  induction n with
  | zero =>
    intro bs out rest hb h i hi
    simp only [readIndices, Option.some.injEq, Prod.mk.injEq] at h
    rw [← h.1] at hi
    cases hi
  | succ n ih =>
    intro bs out rest hb h i hi
    cases bs with
    | nil => simp [readIndices] at h
    | cons b r =>
      simp only [readIndices, if_true, eq_self_iff_true, if_pos] at h
      cases h2 : readIndices 0 n r with
      | none => rw [h2] at h; cases h
      | some p =>
        rw [h2] at h
        obtain ⟨is, t⟩ := p
        simp only [Option.some.injEq, Prod.mk.injEq] at h
        obtain ⟨rfl, rfl⟩ := h
        have hb0 : b < 256 := hb b (List.mem_cons_self b r)
        rcases List.mem_cons.mp hi with rfl | hi2
        · unfold sbyteVal
          split <;> omega
        · exact ih r is t (fun x hx => hb x (List.mem_cons_of_mem b hx)) h2 i hi2

theorem readPositions_append (n : ℕ) (bs e : List ℕ) (ps : List (ℕ × ℕ × ℕ))
    (rest : List ℕ) (h : readPositions n bs = some (ps, rest)) :
    readPositions n (bs ++ e) = some (ps, rest ++ e) := by
  induction n generalizing bs ps rest with
  | zero =>
    simp only [readPositions, Option.some.injEq, Prod.mk.injEq] at h
    simp [readPositions, h.1, h.2]
  | succ n ih =>
    simp only [readPositions] at h ⊢
    cases h2 : splitBytes 12 bs with
    | none => rw [h2] at h; cases h
    | some p =>
      rw [h2] at h
      obtain ⟨hh, t⟩ := p
      dsimp only at h
      cases h3 : readPositions n t with
      | none => rw [h3] at h; cases h
      | some q =>
        rw [h3] at h
        obtain ⟨ps2, t2⟩ := q
        simp only [Option.some.injEq, Prod.mk.injEq] at h
        obtain ⟨rfl, rfl⟩ := h
        rw [splitBytes_append 12 bs e hh t h2]
        dsimp only
        rw [ih t ps2 t2 h3]

theorem readU32List_append (n : ℕ) (bs e : List ℕ) (vs : List ℕ)
    (rest : List ℕ) (h : readU32List n bs = some (vs, rest)) :
    readU32List n (bs ++ e) = some (vs, rest ++ e) := by
  induction n generalizing bs vs rest with
  | zero =>
    simp only [readU32List, Option.some.injEq, Prod.mk.injEq] at h
    simp [readU32List, h.1, h.2]
  | succ n ih =>
    simp only [readU32List] at h ⊢
    cases h2 : readU32 bs with
    | none => rw [h2] at h; cases h
    | some p =>
      rw [h2] at h
      obtain ⟨v, t⟩ := p
      dsimp only at h
      cases h3 : readU32List n t with
      | none => rw [h3] at h; cases h
      | some q =>
        rw [h3] at h
        obtain ⟨vs2, t2⟩ := q
        simp only [Option.some.injEq, Prod.mk.injEq] at h
        obtain ⟨rfl, rfl⟩ := h
        rw [readU32_append bs e v t h2]
        dsimp only
        rw [ih t vs2 t2 h3]

/-! ## C9: bad magic is rejected -/

/-- C9: any buffer of at least 4 bytes whose leading little-endian u32
differs from the BOB magic 45623 is rejected by `load` with `BadMagic`,
and one differing from the COB magic 13466 is rejected by `loadcob` with
`BadMagic`; no mesh document is produced. -/
theorem c9_bad_magic_rejected (bs : List ℕ) (h4 : 4 ≤ bs.length) :
    (leVal (bs.take 4) ≠ BOB_FILE_ID → load bs = .error .badMagic) ∧
    (leVal (bs.take 4) ≠ COB_FILE_ID → loadcob bs = .error .badMagic) := by
  have h1 : readU32 bs = some (leVal (bs.take 4), bs.drop 4) := by
    unfold readU32
    rw [splitBytes_take_drop 4 bs h4]
  constructor <;> intro hm
  · unfold load
    rw [h1]
    dsimp only
    rw [if_neg hm]
  · unfold loadcob
    rw [h1]
    dsimp only
    rw [if_neg hm]

theorem c9_witness :
    load [0, 0, 0, 0] = Except.error RErr.badMagic ∧
    loadcob [0, 0, 0, 0] = Except.error RErr.badMagic :=
  ⟨(c9_bad_magic_rejected [0, 0, 0, 0] (by decide)).1 (by decide),
   (c9_bad_magic_rejected [0, 0, 0, 0] (by decide)).2 (by decide)⟩

/-- C3 counterexample: decoding a variant-0 BOB file whose third index
byte is 255 yields the face `(0, 0, -1)` — a NEGATIVE index, because the
source reads variant-0 indices with the signed `struct "b"` format.  The
claim that every decoded variant-0 index is nonnegative (unsigned 0–255
interpretation) is false of the code. -/
theorem c3_counterexample :
    load c3bytes = Except.ok c3doc ∧ (0, 0, -1) ∈ c3doc.faces ∧ ((-1 : ℤ) < 0) :=
  ⟨rfl, by decide, by decide⟩

/-- C3 amended: for meshFormat 0, each index byte is interpreted as a
SIGNED byte: every decoded index lies in `-128..127` (an on-disk byte
`≥ 128` decodes to the negative value `byte - 256`, as the
counterexample shows). -/
theorem c3_signed_byte_indices (bs : List ℕ) (doc : BobDoc)
    (hb : ∀ b ∈ bs, b < 256) (hok : load bs = .ok doc)
    (hf : doc.meshFormat = 0) :
    ∀ t ∈ doc.faces, (-128 ≤ t.1 ∧ t.1 ≤ 127) ∧ (-128 ≤ t.2.1 ∧ t.2.1 ≤ 127) ∧
      (-128 ≤ t.2.2 ∧ t.2.2 ≤ 127) := by
  unfold load at hok
  cases h1 : readU32 bs with
  | none => rw [h1] at hok; cases hok
  | some p1 =>
    obtain ⟨magic, bs1⟩ := p1
    rw [h1] at hok
    dsimp only at hok
    by_cases hm : magic = BOB_FILE_ID
    · rw [if_pos hm] at hok
      cases h2 : readU32 bs1 with
      | none => rw [h2] at hok; cases hok
      | some p2 =>
        obtain ⟨mf, bs2⟩ := p2
        rw [h2] at hok
        dsimp only at hok
        by_cases hmf : mf = 0 ∨ mf = 1
        · rw [if_pos hmf] at hok
          cases h3 : readU32 bs2 with
          | none => rw [h3] at hok; cases hok
          | some p3 =>
            obtain ⟨vc, bs3⟩ := p3
            rw [h3] at hok
            dsimp only at hok
            cases h4 : readU32 bs3 with
            | none => rw [h4] at hok; cases hok
            | some p4 =>
              obtain ⟨fc, bs4⟩ := p4
              rw [h4] at hok
              dsimp only at hok
              cases h5 : readVerts vc bs4 with
              | none => rw [h5] at hok; cases hok
              | some p5 =>
                obtain ⟨vs, bs5⟩ := p5
                rw [h5] at hok
                dsimp only at hok
                cases h6 : readIndices mf (fc * 3) bs5 with
                | none => rw [h6] at hok; cases hok
                | some p6 =>
                  obtain ⟨is, bs6⟩ := p6
                  rw [h6] at hok
                  dsimp only at hok
                  obtain rfl := (Except.ok.inj hok)
                  dsimp only at hf
                  subst hf
                  have hb5 : ∀ b ∈ bs5, b < 256 := fun b hmem =>
                    hb b (readU32_subset bs _ bs1 h1
                      (readU32_subset bs1 _ bs2 h2
                        (readU32_subset bs2 _ bs3 h3
                          (readU32_subset bs3 _ bs4 h4
                            (readVerts_subset vc bs4 vs bs5 h5 hmem)))))
                  intro t ht
                  obtain ⟨m1, m2, m3⟩ := groupTriples_mem is t ht
                  have hr := readIndices0_range (fc * 3) bs5 is bs6 hb5 h6
                  exact ⟨hr t.1 m1, hr t.2.1 m2, hr t.2.2 m3⟩
        · rw [if_neg hmf] at hok; cases hok
    · rw [if_neg hm] at hok; cases hok

theorem c3_signed_byte_indices_witness :
    ((-128 : ℤ) ≤ 0 ∧ (0 : ℤ) ≤ 127) ∧ ((-128 : ℤ) ≤ 0 ∧ (0 : ℤ) ≤ 127) ∧
      ((-128 : ℤ) ≤ -1 ∧ (-1 : ℤ) ≤ 127) :=
  c3_signed_byte_indices c3bytes c3doc (by decide) rfl rfl (0, 0, -1) (by decide)

/-- C4 counterexample: `loadcob` decodes a COB stream that contains NO
normal bytes at all (exactly header + positions + indices, 36 bytes)
successfully, and appending a normal section changes nothing — so the
decoder does not read `faceCount` normals, and the produced document
carries no normals (the `CobDoc` it builds has no normal data). -/
theorem c4_counterexample :
    loadcob c4base = Except.ok c4doc ∧
    loadcob (c4base ++ c4normals) = Except.ok c4doc ∧
    c4base.length = 36 :=
  ⟨rfl, rfl, rfl⟩

/-- C4 amended: COB decode reads the magic, the two counts,
`vertexCount` positions and `faceCount*3` u32 indices and stops; all
bytes after the index section (the file format's per-face normal
section included) are ignored: appending anything to a successfully
decoded stream yields the identical document. -/
theorem c4_normals_not_read (bs extra : List ℕ) (doc : CobDoc)
    (hok : loadcob bs = .ok doc) : loadcob (bs ++ extra) = .ok doc := by
  unfold loadcob at hok ⊢
  cases h1 : readU32 bs with
  | none => rw [h1] at hok; cases hok
  | some p1 =>
    obtain ⟨magic, bs1⟩ := p1
    rw [h1] at hok
    rw [readU32_append bs extra magic bs1 h1]
    dsimp only at hok ⊢
    by_cases hm : magic = COB_FILE_ID
    · rw [if_pos hm] at hok ⊢
      cases h2 : readU32 bs1 with
      | none => rw [h2] at hok; cases hok
      | some p2 =>
        obtain ⟨vc, bs2⟩ := p2
        rw [h2] at hok
        rw [readU32_append bs1 extra vc bs2 h2]
        dsimp only at hok ⊢
        cases h3 : readU32 bs2 with
        | none => rw [h3] at hok; cases hok
        | some p3 =>
          obtain ⟨fc, bs3⟩ := p3
          rw [h3] at hok
          rw [readU32_append bs2 extra fc bs3 h3]
          dsimp only at hok ⊢
          cases h4 : readPositions vc bs3 with
          | none => rw [h4] at hok; cases hok
          | some p4 =>
            obtain ⟨ps, bs4⟩ := p4
            rw [h4] at hok
            rw [readPositions_append vc bs3 extra ps bs4 h4]
            dsimp only at hok ⊢
            cases h5 : readU32List (fc * 3) bs4 with
            | none => rw [h5] at hok; cases hok
            | some p5 =>
              obtain ⟨is, bs5⟩ := p5
              rw [h5] at hok
              rw [readU32List_append (fc * 3) bs4 extra is bs5 h5]
              exact hok
    · rw [if_neg hm] at hok; cases hok

theorem c4_normals_not_read_witness :
    loadcob (c4base ++ c4normals) = Except.ok c4doc :=
  c4_normals_not_read c4base c4normals c4doc rfl

theorem WF_emptyVerts : WF emptyVerts := by
  intro k i hmem
  simp [emptyVerts, dget] at hmem

theorem Disj_emptyVerts : Disj emptyVerts := by
  intro k1 k2 i h1 h2
  simp [emptyVerts, dget] at h1

theorem dget_dappend_same (m : List (ℕ × List ℕ)) (k x : ℕ) :
    dget (dappend m k x) k = dget m k ++ [x] := by
  induction m with
  | nil => simp [dget, dappend]
  | cons p rest ih =>
    obtain ⟨k2, v⟩ := p
    by_cases h : k2 = k
    · simp [dget, dappend, h]
    · simp [dget, dappend, h, ih]

theorem dget_dappend_ne (m : List (ℕ × List ℕ)) (b k x : ℕ) (h : k ≠ b) :
    dget (dappend m b x) k = dget m k := by
  induction m with
  | nil => simp [dget, dappend, Ne.symm h]
  | cons p rest ih =>
    obtain ⟨k2, v⟩ := p
    by_cases h2 : k2 = b
    · subst h2
      simp [dget, dappend, Ne.symm h]
    · by_cases h3 : k2 = k
      · subst h3
        simp [dget, dappend, h2]
      · simp [dget, dappend, h2, h3, ih]

theorem firstSim_mem (inst : Vert) (verts : List Vert) (cands : List ℕ) (i : ℕ)
    (h : firstSim inst verts cands = some i) : i ∈ cands := by
  induction cands with
  | nil => simp [firstSim] at h
  | cons j rest ih =>
    simp only [firstSim] at h
    cases h2 : verts.get? j with
    | none =>
      rw [h2] at h
      dsimp only at h
      exact List.mem_cons_of_mem j (ih h)
    | some other =>
      rw [h2] at h
      dsimp only at h
      by_cases h3 : inst.simmilar other = true
      · rw [if_pos h3] at h
        obtain rfl := Option.some.inj h
        exact List.mem_cons_self j rest
      · rw [if_neg h3] at h
        exact List.mem_cons_of_mem j (ih h)

theorem firstSim_append_right (inst : Vert) (verts : List Vert) (c1 c2 : List ℕ) (i : ℕ)
    (h : firstSim inst verts c1 = some i) :
    firstSim inst verts (c1 ++ c2) = some i := by
  induction c1 with
  | nil => simp [firstSim] at h
  | cons j rest ih =>
    simp only [firstSim, List.cons_append] at h ⊢
    cases h2 : verts.get? j with
    | none =>
      rw [h2] at h
      dsimp only at h ⊢
      exact ih h
    | some other =>
      rw [h2] at h
      dsimp only at h ⊢
      by_cases h3 : inst.simmilar other = true
      · rw [if_pos h3] at h ⊢; exact h
      · rw [if_neg h3] at h ⊢; exact ih h

theorem firstSim_none_append (inst : Vert) (verts : List Vert) (c1 c2 : List ℕ)
    (h : firstSim inst verts c1 = none) :
    firstSim inst verts (c1 ++ c2) = firstSim inst verts c2 := by
  induction c1 with
  | nil => simp
  | cons j rest ih =>
    simp only [firstSim, List.cons_append] at h ⊢
    cases h2 : verts.get? j with
    | none =>
      rw [h2] at h
      dsimp only at h ⊢
      exact ih h
    | some other =>
      rw [h2] at h
      dsimp only at h ⊢
      by_cases h3 : inst.simmilar other = true
      · rw [if_pos h3] at h; cases h
      · rw [if_neg h3] at h ⊢; exact ih h

theorem firstSim_verts_mono (inst : Vert) (verts w : List Vert) (cands : List ℕ)
    (hb : ∀ i ∈ cands, i < verts.length) :
    firstSim inst (verts ++ w) cands = firstSim inst verts cands := by
  induction cands with
  | nil => simp [firstSim]
  | cons j rest ih =>
    simp only [firstSim]
    rw [List.get?_append (hb j (List.mem_cons_self j rest))]
    cases h2 : verts.get? j with
    | none =>
      dsimp only
      exact ih fun i hi => hb i (List.mem_cons_of_mem j hi)
    | some other =>
      dsimp only
      by_cases h3 : inst.simmilar other = true
      · simp only [if_pos h3]
      · simp only [if_neg h3]
        exact ih fun i hi => hb i (List.mem_cons_of_mem j hi)

theorem simmilar_self (v : Vert) : v.simmilar v = true := by
  obtain ⟨c, n, uv⟩ := v
  cases uv <;>
    simp [Vert.simmilar, vec_similar3, vec_similar2, distSq3, distSq2, sub_self]

theorem Verts.get_eq_of_found (s : Verts) (co n : Vec3) (b : ℕ) (uv : Option Vec2) (i : ℕ)
    (h : firstSim ⟨co, n, uv⟩ s._verts (dget s._by_blender_index b) = some i) :
    Verts.get s co n b uv = (s, i) := by
  simp only [Verts.get]
  rw [h]

theorem Verts.get_eq_of_not_found (s : Verts) (co n : Vec3) (b : ℕ) (uv : Option Vec2)
    (h : firstSim ⟨co, n, uv⟩ s._verts (dget s._by_blender_index b) = none) :
    Verts.get s co n b uv =
      (⟨s._verts ++ [⟨co, n, uv⟩], dappend s._by_blender_index b s._verts.length⟩,
        s._verts.length) := by
  simp only [Verts.get]
  rw [h]

theorem Verts.get_dget_mono (s : Verts) (co n : Vec3) (b : ℕ) (uv : Option Vec2) (k : ℕ) :
    dget s._by_blender_index k ⊆ dget (Verts.get s co n b uv).1._by_blender_index k := by
  cases hf : firstSim ⟨co, n, uv⟩ s._verts (dget s._by_blender_index b) with
  | some i =>
    rw [Verts.get_eq_of_found s co n b uv i hf]
    exact fun x hx => hx
  | none =>
    rw [Verts.get_eq_of_not_found s co n b uv hf]
    dsimp only
    by_cases hk : k = b
    · subst hk
      rw [dget_dappend_same]
      exact fun x hx => List.mem_append_left _ hx
    · rw [dget_dappend_ne _ _ _ _ hk]
      exact fun x hx => hx

theorem Verts.get_verts_ext (s : Verts) (co n : Vec3) (b : ℕ) (uv : Option Vec2) :
    ∃ w, (Verts.get s co n b uv).1._verts = s._verts ++ w := by
  cases hf : firstSim ⟨co, n, uv⟩ s._verts (dget s._by_blender_index b) with
  | some i =>
    rw [Verts.get_eq_of_found s co n b uv i hf]
    exact ⟨[], by simp⟩
  | none =>
    rw [Verts.get_eq_of_not_found s co n b uv hf]
    exact ⟨[⟨co, n, uv⟩], rfl⟩

theorem Verts.get_len_mono (s : Verts) (co n : Vec3) (b : ℕ) (uv : Option Vec2) :
    s._verts.length ≤ (Verts.get s co n b uv).1._verts.length := by
  obtain ⟨w, hw⟩ := Verts.get_verts_ext s co n b uv
  simp [hw]

theorem Verts.get_WF (s : Verts) (co n : Vec3) (b : ℕ) (uv : Option Vec2) (hw : WF s) :
    WF (Verts.get s co n b uv).1 := by
  cases hf : firstSim ⟨co, n, uv⟩ s._verts (dget s._by_blender_index b) with
  | some i =>
    rw [Verts.get_eq_of_found s co n b uv i hf]
    exact hw
  | none =>
    rw [Verts.get_eq_of_not_found s co n b uv hf]
    intro k i hmem
    dsimp only at hmem ⊢
    rw [List.length_append, List.length_singleton]
    by_cases hk : k = b
    · subst hk
      rw [dget_dappend_same] at hmem
      rcases List.mem_append.mp hmem with hmem | hmem
      · exact Nat.lt_succ_of_lt (hw k i hmem)
      · simp only [List.mem_singleton] at hmem
        subst hmem
        exact Nat.lt_succ_self _
    · rw [dget_dappend_ne _ _ _ _ hk] at hmem
      exact Nat.lt_succ_of_lt (hw k i hmem)

theorem Verts.get_Disj (s : Verts) (co n : Vec3) (b : ℕ) (uv : Option Vec2)
    (hw : WF s) (hd : Disj s) : Disj (Verts.get s co n b uv).1 := by
  cases hf : firstSim ⟨co, n, uv⟩ s._verts (dget s._by_blender_index b) with
  | some i =>
    rw [Verts.get_eq_of_found s co n b uv i hf]
    exact hd
  | none =>
    rw [Verts.get_eq_of_not_found s co n b uv hf]
    intro k1 k2 i h1 h2
    dsimp only at h1 h2
    have split1 : i ∈ dget s._by_blender_index k1 ∨ (k1 = b ∧ i = s._verts.length) := by
      by_cases hk : k1 = b
      · subst hk
        rw [dget_dappend_same] at h1
        rcases List.mem_append.mp h1 with h1 | h1
        · exact Or.inl h1
        · simp only [List.mem_singleton] at h1
          exact Or.inr ⟨rfl, h1⟩
      · rw [dget_dappend_ne _ _ _ _ hk] at h1
        exact Or.inl h1
    have split2 : i ∈ dget s._by_blender_index k2 ∨ (k2 = b ∧ i = s._verts.length) := by
      by_cases hk : k2 = b
      · subst hk
        rw [dget_dappend_same] at h2
        rcases List.mem_append.mp h2 with h2 | h2
        · exact Or.inl h2
        · simp only [List.mem_singleton] at h2
          exact Or.inr ⟨rfl, h2⟩
      · rw [dget_dappend_ne _ _ _ _ hk] at h2
        exact Or.inl h2
    rcases split1 with h1m | ⟨hk1, hi1⟩
    · rcases split2 with h2m | ⟨hk2, hi2⟩
      · exact hd k1 k2 i h1m h2m
      · exact absurd (hw k1 i h1m) (by omega)
    · rcases split2 with h2m | ⟨hk2, hi2⟩
      · exact absurd (hw k2 i h2m) (by omega)
      · rw [hk1, hk2]

theorem Verts.get_result_mem (s : Verts) (co n : Vec3) (b : ℕ) (uv : Option Vec2) :
    (Verts.get s co n b uv).2 ∈ dget (Verts.get s co n b uv).1._by_blender_index b := by
  cases hf : firstSim ⟨co, n, uv⟩ s._verts (dget s._by_blender_index b) with
  | some i =>
    rw [Verts.get_eq_of_found s co n b uv i hf]
    exact firstSim_mem _ _ _ _ hf
  | none =>
    rw [Verts.get_eq_of_not_found s co n b uv hf]
    dsimp only
    rw [dget_dappend_same]
    exact List.mem_append_right _ (List.mem_singleton.mpr rfl)

theorem Verts.get_result_lt (s : Verts) (co n : Vec3) (b : ℕ) (uv : Option Vec2)
    (hw : WF s) : (Verts.get s co n b uv).2 < (Verts.get s co n b uv).1._verts.length := by
  cases hf : firstSim ⟨co, n, uv⟩ s._verts (dget s._by_blender_index b) with
  | some i =>
    rw [Verts.get_eq_of_found s co n b uv i hf]
    exact hw b i (firstSim_mem _ _ _ _ hf)
  | none =>
    rw [Verts.get_eq_of_not_found s co n b uv hf]
    simp

theorem Verts.get_resolves (s : Verts) (co n : Vec3) (b : ℕ) (uv : Option Vec2)
    (hw : WF s) :
    firstSim ⟨co, n, uv⟩ (Verts.get s co n b uv).1._verts
      (dget (Verts.get s co n b uv).1._by_blender_index b) =
      some (Verts.get s co n b uv).2 := by
  cases hf : firstSim ⟨co, n, uv⟩ s._verts (dget s._by_blender_index b) with
  | some i =>
    rw [Verts.get_eq_of_found s co n b uv i hf]
    exact hf
  | none =>
    rw [Verts.get_eq_of_not_found s co n b uv hf]
    dsimp only
    rw [dget_dappend_same]
    have h1 : firstSim ⟨co, n, uv⟩ (s._verts ++ [⟨co, n, uv⟩])
        (dget s._by_blender_index b) = none := by
      rw [firstSim_verts_mono _ _ _ _ (fun j hj => hw b j hj)]
      exact hf
    rw [firstSim_none_append _ _ _ _ h1]
    simp only [firstSim]
    rw [List.get?_concat_length]
    simp [simmilar_self]

theorem Verts.get_preserves_firstSim (s : Verts) (co n : Vec3) (b : ℕ) (uv : Option Vec2)
    (hw : WF s) (v : Vert) (k i : ℕ)
    (h : firstSim v s._verts (dget s._by_blender_index k) = some i) :
    firstSim v (Verts.get s co n b uv).1._verts
      (dget (Verts.get s co n b uv).1._by_blender_index k) = some i := by
  cases hf : firstSim ⟨co, n, uv⟩ s._verts (dget s._by_blender_index b) with
  | some j =>
    rw [Verts.get_eq_of_found s co n b uv j hf]
    exact h
  | none =>
    rw [Verts.get_eq_of_not_found s co n b uv hf]
    dsimp only
    have hmono : firstSim v (s._verts ++ [⟨co, n, uv⟩]) (dget s._by_blender_index k) =
        some i := by
      rw [firstSim_verts_mono _ _ _ _ (fun j hj => hw k j hj)]
      exact h
    by_cases hk : k = b
    · subst hk
      rw [dget_dappend_same]
      exact firstSim_append_right _ _ _ _ _ hmono
    · rw [dget_dappend_ne _ _ _ _ hk]
      exact hmono

theorem processCorners_WF (s : Verts) (cs : List Corner) (hw : WF s) :
    WF (processCorners s cs).1 := by
  induction cs generalizing s with
  | nil => exact hw
  | cons c rest ih =>
    simp only [processCorners]
    exact ih _ (Verts.get_WF _ _ _ _ _ hw)

theorem processCorners_Disj (s : Verts) (cs : List Corner) (hw : WF s) (hd : Disj s) :
    Disj (processCorners s cs).1 := by
  induction cs generalizing s with
  | nil => exact hd
  | cons c rest ih =>
    simp only [processCorners]
    exact ih _ (Verts.get_WF _ _ _ _ _ hw) (Verts.get_Disj _ _ _ _ _ hw hd)

theorem processCorners_dget_mono (s : Verts) (cs : List Corner) (k : ℕ) :
    dget s._by_blender_index k ⊆ dget (processCorners s cs).1._by_blender_index k := by
  induction cs generalizing s with
  | nil => exact fun x hx => hx
  | cons c rest ih =>
    simp only [processCorners]
    exact fun x hx => ih _ (Verts.get_dget_mono _ _ _ _ _ _ hx)

theorem processCorners_len_mono (s : Verts) (cs : List Corner) :
    s._verts.length ≤ (processCorners s cs).1._verts.length := by
  induction cs generalizing s with
  | nil => exact le_refl _
  | cons c rest ih =>
    simp only [processCorners]
    exact (Verts.get_len_mono _ _ _ _ _).trans (ih _)

theorem processCorners_preserves_firstSim (s : Verts) (cs : List Corner) (hw : WF s)
    (v : Vert) (k i : ℕ)
    (h : firstSim v s._verts (dget s._by_blender_index k) = some i) :
    firstSim v (processCorners s cs).1._verts
      (dget (processCorners s cs).1._by_blender_index k) = some i := by
  induction cs generalizing s with
  | nil => exact h
  | cons c rest ih =>
    simp only [processCorners]
    exact ih _ (Verts.get_WF _ _ _ _ _ hw)
      (Verts.get_preserves_firstSim _ _ _ _ _ hw v k i h)

theorem processCorners_ids_lt (s : Verts) (cs : List Corner) (hw : WF s) :
    ∀ i ∈ (processCorners s cs).2, i < (processCorners s cs).1._verts.length := by
  induction cs generalizing s with
  | nil => simp [processCorners]
  | cons c rest ih =>
    simp only [processCorners]
    intro i hi
    rcases List.mem_cons.mp hi with rfl | hi2
    · exact lt_of_lt_of_le (Verts.get_result_lt _ _ _ _ _ hw)
        (processCorners_len_mono _ rest)
    · exact ih _ (Verts.get_WF _ _ _ _ _ hw) i hi2

theorem processFaces_WF (s : Verts) (faces : List (List Corner)) (hw : WF s) :
    WF (processFaces s faces).1 := by
  induction faces generalizing s with
  | nil => exact hw
  | cons f rest ih =>
    simp only [processFaces]
    exact ih _ (processCorners_WF _ _ hw)

theorem processFaces_len_mono (s : Verts) (faces : List (List Corner)) :
    s._verts.length ≤ (processFaces s faces).1._verts.length := by
  induction faces generalizing s with
  | nil => exact le_refl _
  | cons f rest ih =>
    simp only [processFaces]
    exact (processCorners_len_mono _ _).trans (ih _)

theorem processFaces_ids_lt (s : Verts) (faces : List (List Corner)) (hw : WF s) :
    ∀ i ∈ (processFaces s faces).2.flatten, i < (processFaces s faces).1._verts.length := by
  induction faces generalizing s with
  | nil => simp [processFaces]
  | cons f rest ih =>
    simp only [processFaces, List.flatten_cons]
    intro i hi
    rcases List.mem_append.mp hi with hi1 | hi2
    · exact lt_of_lt_of_le (processCorners_ids_lt _ _ hw i hi1)
        (processFaces_len_mono _ rest)
    · exact ih _ (processCorners_WF _ _ hw) i hi2

theorem processCorners_faceLens (s : Verts) (cs : List Corner) :
    (processCorners s cs).2.length = cs.length := by
  induction cs generalizing s with
  | nil => rfl
  | cons c rest ih =>
    simp only [processCorners, List.length_cons]
    rw [ih]

theorem processFaces_lens (s : Verts) (faces : List (List Corner)) :
    (processFaces s faces).2.length = faces.length ∧
    ∀ k, ((processFaces s faces).2.get? k).map List.length =
      (faces.get? k).map List.length := by
  induction faces generalizing s with
  | nil => exact ⟨rfl, fun k => rfl⟩
  | cons f rest ih =>
    simp only [processFaces, List.length_cons]
    constructor
    · rw [(ih _).1]
    · intro k
      cases k with
      | zero => simp [processCorners_faceLens]
      | succ k => simpa using (ih _).2 k

/-! ## C7 and C8: dedup idempotence and separation -/

/-- C7: two FaceCorners of one export that carry the same source
(blender) index and identical position, normal and UV are assigned the
same vertex index by the Deduplication Engine, no matter how many other
corners are processed in between and from any well-formed engine state. -/
theorem c7_dedup_idempotent (s0 : Verts) (h0 : WF s0) (c c2 : Corner) (mid : List Corner)
    (hco : c2.co = c.co) (hn : c2.normal = c.normal) (hb : c2.index = c.index)
    (huv : c2.uv = c.uv) :
    (processCorner (processCorners (processCorner s0 c).1 mid).1 c2).2 =
      (processCorner s0 c).2 := by
  unfold processCorner
  rw [hco, hn, hb, huv]
  have hres1 := Verts.get_resolves s0 c.co c.normal c.index c.uv h0
  have hw1 := Verts.get_WF s0 c.co c.normal c.index c.uv h0
  have hres2 := processCorners_preserves_firstSim _ mid hw1 _ _ _ hres1
  rw [Verts.get_eq_of_found _ _ _ _ _ _ hres2]

/-- C8: two FaceCorners of one export with different source (blender)
indices are never assigned the same vertex index, however similar their
attributes, no matter how many corners are processed in between. -/
theorem c8_dedup_separation (s0 : Verts) (h0 : WF s0) (hd0 : Disj s0) (c c2 : Corner)
    (mid : List Corner) (hne : c2.index ≠ c.index) :
    (processCorner (processCorners (processCorner s0 c).1 mid).1 c2).2 ≠
      (processCorner s0 c).2 := by
  intro heq
  unfold processCorner at heq
  have hm1 : (Verts.get s0 c.co c.normal c.index c.uv).2 ∈
      dget (Verts.get s0 c.co c.normal c.index c.uv).1._by_blender_index c.index :=
    Verts.get_result_mem s0 c.co c.normal c.index c.uv
  have hw1 := Verts.get_WF s0 c.co c.normal c.index c.uv h0
  have hd1 := Verts.get_Disj s0 c.co c.normal c.index c.uv h0 hd0
  set s1 := (Verts.get s0 c.co c.normal c.index c.uv).1 with hs1
  have hm1m : (Verts.get s0 c.co c.normal c.index c.uv).2 ∈
      dget (processCorners s1 mid).1._by_blender_index c.index :=
    processCorners_dget_mono s1 mid c.index hm1
  set sm := (processCorners s1 mid).1 with hsm
  have hwm : WF sm := processCorners_WF s1 mid hw1
  have hdm : Disj sm := processCorners_Disj s1 mid hw1 hd1
  have hm1f : (Verts.get s0 c.co c.normal c.index c.uv).2 ∈
      dget (Verts.get sm c2.co c2.normal c2.index c2.uv).1._by_blender_index c.index :=
    Verts.get_dget_mono sm c2.co c2.normal c2.index c2.uv c.index hm1m
  have hm2 : (Verts.get sm c2.co c2.normal c2.index c2.uv).2 ∈
      dget (Verts.get sm c2.co c2.normal c2.index c2.uv).1._by_blender_index c2.index :=
    Verts.get_result_mem sm c2.co c2.normal c2.index c2.uv
  have hdf : Disj (Verts.get sm c2.co c2.normal c2.index c2.uv).1 :=
    Verts.get_Disj sm c2.co c2.normal c2.index c2.uv hwm hdm
  rw [heq] at hm2
  exact hne (hdf c2.index c.index _ hm2 hm1f)

/-! ## Write-path lemmas -/

theorem takeWhile_append_of_all {α : Type} (p : α → Bool) (f l : List α)
    (h : f.all p = true) : (f ++ l).takeWhile p = f ++ l.takeWhile p := by
  induction f with
  | nil => simp
  | cons a rest ih =>
    simp only [List.all_cons, Bool.and_eq_true] at h
    simp [List.takeWhile_cons, h.1, ih h.2]

theorem takeWhile_append_of_not_all {α : Type} (p : α → Bool) (f l : List α)
    (h : f.all p = false) : (f ++ l).takeWhile p = f.takeWhile p := by
  induction f with
  | nil => simp at h
  | cons a rest ih =>
    simp only [List.all_cons, Bool.and_eq_false_iff] at h
    rcases h with h | h
    · simp [List.takeWhile_cons, h]
    · cases hp : p a
      · simp [List.takeWhile_cons, hp]
      · simp [List.takeWhile_cons, hp, ih h]

/-- `writeFaceIdx` writes the u16 of every index up to (excluding) the
first one exceeding 65535; it succeeds iff all of them fit. -/
theorem writeFaceIdx_eq (ids : List ℕ) (acc : List Tok) :
    writeFaceIdx ids acc =
      (acc ++ (ids.takeWhile (fun i => decide (i ≤ 65535))).map Tok.u16,
       if ids.all (fun i => decide (i ≤ 65535)) then none else some WErr.packRange) := by
  induction ids generalizing acc with
  | nil => simp [writeFaceIdx]
  | cons i rest ih =>
    by_cases hi : i ≤ 65535
    · simp [writeFaceIdx, hi, ih, List.takeWhile_cons, List.all_cons]
    · simp [writeFaceIdx, hi, List.takeWhile_cons, List.all_cons]

/-- `writeFaces` on faces that all have 3 indices: tokens are the u16 of
the flattened index list up to the first out-of-range index; success iff
all indices fit in a u16. -/
theorem writeFaces_eq3 (fs : List (List ℕ)) (acc : List Tok)
    (h3 : ∀ f ∈ fs, f.length = 3) :
    writeFaces fs acc =
      (acc ++ (fs.flatten.takeWhile (fun i => decide (i ≤ 65535))).map Tok.u16,
       if fs.flatten.all (fun i => decide (i ≤ 65535)) then none
       else some WErr.packRange) := by
  induction fs generalizing acc with
  | nil => simp [writeFaces]
  | cons f rest ih =>
    have hf3 : f.length = 3 := h3 f (List.mem_cons_self f rest)
    have ihr : ∀ acc2, writeFaces rest acc2 =
        (acc2 ++ (rest.flatten.takeWhile (fun i => decide (i ≤ 65535))).map Tok.u16,
         if rest.flatten.all (fun i => decide (i ≤ 65535)) then none
         else some WErr.packRange) :=
      fun acc2 => ih acc2 fun g hg => h3 g (List.mem_cons_of_mem f hg)
    simp only [writeFaces, if_pos hf3]
    rw [writeFaceIdx_eq]
    cases hall : f.all (fun i => decide (i ≤ 65535)) with
    | true =>
      have hself : f.takeWhile (fun i => decide (i ≤ 65535)) = f :=
        List.takeWhile_eq_self_iff.mpr (List.all_eq_true.mp hall)
      simp [ihr, List.flatten_cons, takeWhile_append_of_all _ _ _ hall,
        List.all_append, hall, List.map_append, List.append_assoc, hself]
    | false =>
      simp [List.flatten_cons, takeWhile_append_of_not_all _ _ _ hall,
        List.all_append, hall]

/-- `writeCobFaces` succeeds on all-triangle faces with u32-range
indices and writes exactly the per-face index tokens. -/
theorem writeCobFaces_ok (fs : List CobFace) (acc : List Tok)
    (h3 : ∀ f ∈ fs, f.vertices.length = 3)
    (hi : ∀ f ∈ fs, ∀ i ∈ f.vertices, i < 2 ^ 32) :
    writeCobFaces fs acc =
      (acc ++ (fs.map (fun f => f.vertices.map Tok.u32)).flatten, none) := by
  induction fs generalizing acc with
  | nil => simp [writeCobFaces]
  | cons f rest ih =>
    have hidx : ∀ ids acc2, (∀ i ∈ ids, i < 2 ^ 32) →
        writeCobIdx ids acc2 = (acc2 ++ ids.map Tok.u32, none) := by
      intro ids
      induction ids with
      | nil => intro acc2 _; simp [writeCobIdx]
      | cons i r ihr =>
        intro acc2 hr
        simp only [writeCobIdx, if_pos (hr i (List.mem_cons_self i r))]
        rw [ihr _ fun j hj => hr j (List.mem_cons_of_mem i hj)]
        simp [List.append_assoc]
    simp only [writeCobFaces, if_pos (h3 f (List.mem_cons_self f rest))]
    rw [hidx f.vertices acc (hi f (List.mem_cons_self f rest))]
    dsimp only
    rw [ih _ (fun g hg => h3 g (List.mem_cons_of_mem f hg))
      (fun g hg => hi g (List.mem_cons_of_mem f hg))]
    simp [List.append_assoc]

/-- Unfolds `save` once the two u32 count packs are known to fit. -/
theorem save_eq_of_counts (tri : SrcMesh → SrcMesh) (trib : Bool) (m : SrcMesh)
    (s0 : Verts) (p : Verts × List (List ℕ))
    (hp : processFaces s0
      (if trib || m.tessfaceSizes.any (fun k => k != 3) then tri m else m).faces = p)
    (hv : p.1._verts.length < 2 ^ 32) (hc : p.2.length < 2 ^ 32) :
    (save tri trib m s0).toks =
      (writeFaces p.2 ([Tok.u32 BOB_FILE_ID, Tok.u32 1, Tok.u32 p.1._verts.length,
        Tok.u32 p.2.length] ++ (p.1._verts.map vertexTok).flatten)).1 ∧
    (save tri trib m s0).err =
      (writeFaces p.2 ([Tok.u32 BOB_FILE_ID, Tok.u32 1, Tok.u32 p.1._verts.length,
        Tok.u32 p.2.length] ++ (p.1._verts.map vertexTok).flatten)).2 := by
  have h1 : BOB_FILE_ID < 4294967296 := by norm_num [BOB_FILE_ID]
  have h2 : (1 : ℕ) < 4294967296 := by norm_num
  have hv2 : p.1._verts.length < 4294967296 := by norm_num at hv; exact hv
  have hc2 : p.2.length < 4294967296 := by norm_num at hc; exact hc
  simp only [save]
  rw [hp]
  simp [writeU32, andThenW, h1, h2, hv2, hc2]

/-- Unfolds `savecob` once both u32 count packs are known to fit. -/
theorem savecob_eq_of_counts (tri : CobMesh → CobMesh) (trib : Bool) (m m2 : CobMesh)
    (hm2 : (if trib || m.tessfaces.any (fun f => f.vertices.length != 3) then tri m
      else m) = m2)
    (hv : m2.vertices.length < 2 ^ 32) (hc : m2.tessfaces.length < 2 ^ 32) :
    savecob tri trib m =
      andThenW (writeCobFaces m2.tessfaces
        ([Tok.u32 COB_FILE_ID, Tok.u32 m2.vertices.length, Tok.u32 m2.tessfaces.length] ++
          (m2.vertices.map (fun v => [Tok.f32 v.x, Tok.f32 v.y, Tok.f32 v.z])).flatten))
        (fun a =>
          (a ++ (m2.tessfaces.map (fun f =>
            [Tok.f32 f.normal.x, Tok.f32 f.normal.y, Tok.f32 f.normal.z])).flatten,
            none)) := by
  have h1 : COB_FILE_ID < 4294967296 := by norm_num [COB_FILE_ID]
  have hv2 : m2.vertices.length < 4294967296 := by norm_num at hv; exact hv
  have hc2 : m2.tessfaces.length < 4294967296 := by norm_num at hc; exact hc
  simp only [savecob]
  rw [hm2]
  simp [writeU32, andThenW, h1, hv2, hc2]

/-! ## C10: u16 index packing -/

/-- C10: the BOB face section writes every assigned index as an exact
unsigned 16-bit value: (1) when every assigned index is ≤ 65535 the face
section is exactly the u16 tokens of the assigned indices in order and
the write succeeds; (2) when some assigned index exceeds 65535 the write
fails with a pack error having emitted only the exact in-range indices
before the first offender — never a wrapped or truncated value; (3) the
Dedup Engine only assigns indices below the deduplicated vertex count,
so an export with at most 65536 vertices always falls in case (1). -/
theorem c10_u16_index_packing :
    (∀ fs acc, (∀ f ∈ fs, f.length = 3) → (∀ i ∈ fs.flatten, i ≤ 65535) →
        writeFaces fs acc = (acc ++ fs.flatten.map Tok.u16, none)) ∧
    (∀ fs acc, (∀ f ∈ fs, f.length = 3) → (∃ i ∈ fs.flatten, 65535 < i) →
        writeFaces fs acc =
          (acc ++ (fs.flatten.takeWhile (fun i => decide (i ≤ 65535))).map Tok.u16,
            some WErr.packRange)) ∧
    (∀ s faces, WF s →
        ∀ i ∈ (processFaces s faces).2.flatten,
          i < (processFaces s faces).1._verts.length) := by
  refine ⟨?_, ?_, processFaces_ids_lt⟩
  · intro fs acc h3 hb
    rw [writeFaces_eq3 fs acc h3]
    have hall : fs.flatten.all (fun i => decide (i ≤ 65535)) = true :=
      List.all_eq_true.mpr fun i hi => by simpa using hb i hi
    have hself : fs.flatten.takeWhile (fun i => decide (i ≤ 65535)) = fs.flatten :=
      List.takeWhile_eq_self_iff.mpr (List.all_eq_true.mp hall)
    rw [hself, if_pos hall]
  · intro fs acc h3 hex
    rw [writeFaces_eq3 fs acc h3]
    have hall : fs.flatten.all (fun i => decide (i ≤ 65535)) = false := by
      cases h : fs.flatten.all (fun i => decide (i ≤ 65535)) with
      | false => rfl
      | true =>
        obtain ⟨i, hi, hgt⟩ := hex
        have := List.all_eq_true.mp h i hi
        simp only [decide_eq_true_eq] at this
        omega
    rw [if_neg (by simp [hall])]

theorem c10_witness :
    writeFaces [[0, 1, 2]] [] = ([Tok.u16 0, Tok.u16 1, Tok.u16 2], none) ∧
    writeFaces [[0, 1, 70000]] [] = ([Tok.u16 0, Tok.u16 1], some WErr.packRange) := by
  constructor
  · have h := c10_u16_index_packing.1 [[0, 1, 2]] [] (by decide) (by decide)
    rw [h]
    decide
  · have h := c10_u16_index_packing.2.1 [[0, 1, 70000]] [] (by decide)
      ⟨70000, by decide, by decide⟩
    rw [h]
    decide

/-- C1 (violated by the code): because `Verts._verts` and
`Verts._by_blender_index` are Python class attributes mutated in place,
the Dedup Engine state survives `save` calls.  Exporting `meshB` right
after exporting `meshA` emits a vertexCount of 6 (the first export's
three vertices included) where a fresh session emits 3 — the second
export's bytes differ from a fresh session's, refuting per-call scoping
of the engine state. -/
theorem c1_state_leaks :
    (save idTri false meshB (save idTri false meshA emptyVerts).state).toks ≠
      (save idTri false meshB emptyVerts).toks ∧
    (save idTri false meshB (save idTri false meshA emptyVerts).state).toks.get? 2 =
      some (Tok.u32 6) ∧
    (save idTri false meshB emptyVerts).toks.get? 2 = some (Tok.u32 3) ∧
    (save idTri false meshB (save idTri false meshA emptyVerts).state).err = none ∧
    (save idTri false meshB emptyVerts).err = none := by
  refine ⟨?_, rfl, rfl, rfl, rfl⟩
  intro h
  have a2 : (save idTri false meshB (save idTri false meshA emptyVerts).state).toks.get? 2 =
      some (Tok.u32 6) := rfl
  have a3 : (save idTri false meshB emptyVerts).toks.get? 2 = some (Tok.u32 3) := rfl
  rw [h, a3] at a2
  simp at a2

/-- C2 counterexample: a face failing the triangle assertion DOES fail
the export, but the bytes already written — header, format, counts and
all five vertex records — remain committed to the file: the byte stream
produced up to the failure point is NOT empty. -/
theorem c2_counterexample :
    (save idTri false meshP emptyVerts).err = some WErr.malformedMesh ∧
    (save idTri false meshP emptyVerts).toks.get? 0 = some (Tok.u32 BOB_FILE_ID) ∧
    (save idTri false meshP emptyVerts).toks ≠ [] := by
  refine ⟨rfl, rfl, ?_⟩
  intro h
  have a : (save idTri false meshP emptyVerts).toks.get? 0 = some (Tok.u32 BOB_FILE_ID) :=
    rfl
  rw [h] at a
  simp at a

/-- C2 amended: when the first bmesh face fails the triangle assertion
(and the tessface guard did not trigger triangulation), the BOB export
fails with the MalformedMesh assertion but the header, counts and vertex
records written before the assertion stay committed — the output is
nonempty, not all-or-nothing. -/
theorem c2_partial_write (tri : SrcMesh → SrcMesh) (m : SrcMesh) (s0 : Verts)
    (hsz : ∀ k ∈ m.tessfaceSizes, k = 3)
    (f0 : List Corner) (hf0 : m.faces.head? = some f0) (hne : f0.length ≠ 3)
    (hv : (processFaces s0 m.faces).1._verts.length < 2 ^ 32)
    (hc : m.faces.length < 2 ^ 32) :
    (save tri false m s0).err = some WErr.malformedMesh ∧
    (save tri false m s0).toks ≠ [] := by
  have hguard : m.tessfaceSizes.any (fun k => k != 3) = false := by
    cases h : m.tessfaceSizes.any (fun k => k != 3) with
    | false => rfl
    | true =>
      obtain ⟨x, hx, hpx⟩ := List.any_eq_true.mp h
      simp [hsz x hx] at hpx
  have hmeq : (if (false || m.tessfaceSizes.any fun k => k != 3) = true
      then tri m else m) = m := by
    rw [Bool.false_or, hguard]
    simp
  obtain ⟨rest, hrest⟩ : ∃ rest, m.faces = f0 :: rest := by
    cases hm : m.faces with
    | nil => rw [hm] at hf0; cases hf0
    | cons a r =>
      rw [hm] at hf0
      simp only [List.head?_cons, Option.some.injEq] at hf0
      exact ⟨r, by rw [hf0]⟩
  have hp : processFaces s0
      (if (false || m.tessfaceSizes.any fun k => k != 3) = true then tri m
        else m).faces = processFaces s0 m.faces := by
    rw [hmeq]
  have hcc : (processFaces s0 m.faces).2.length < 2 ^ 32 := by
    rw [(processFaces_lens s0 m.faces).1]
    exact hc
  obtain ⟨ht, he⟩ := save_eq_of_counts tri false m s0 (processFaces s0 m.faces) hp hv hcc
  have hp2 : (processFaces s0 m.faces).2 =
      (processCorners s0 f0).2 :: (processFaces (processCorners s0 f0).1 rest).2 := by
    rw [hrest]
    simp only [processFaces]
  have hlen : (processCorners s0 f0).2.length = f0.length := processCorners_faceLens s0 f0
  have hwf : ∀ acc, writeFaces ((processFaces s0 m.faces).2) acc =
      (acc, some WErr.malformedMesh) := by
    intro acc
    rw [hp2]
    simp only [writeFaces]
    rw [if_neg (by rw [hlen]; exact hne)]
  constructor
  · rw [he, hwf]
  · rw [ht, hwf]
    simp

theorem c2_partial_write_witness :
    (save idTri false meshQ emptyVerts).err = some WErr.malformedMesh ∧
    (save idTri false meshQ emptyVerts).toks ≠ [] :=
  c2_partial_write idTri meshQ emptyVerts (by decide)
    [⟨⟨0, 0, 0⟩, ⟨0, 0, 1⟩, 0, none⟩, ⟨⟨1, 0, 0⟩, ⟨0, 0, 1⟩, 1, none⟩,
      ⟨⟨1, 1, 0⟩, ⟨0, 0, 1⟩, 2, none⟩, ⟨⟨0, 1, 0⟩, ⟨0, 0, 1⟩, 3, none⟩]
    rfl (by decide) (by decide) (by decide)

/-- C6 counterexample: a quad face reaching the COB export WITHOUT
triangulation having been requested does NOT fail with MalformedMesh —
the export triangulates automatically (the guard fires on any
non-triangle tessface) and succeeds, writing output. -/
theorem c6_counterexample :
    (savecob fanTri false quadMesh).2 = none ∧
    (savecob fanTri false quadMesh).1.get? 0 = some (Tok.u32 COB_FILE_ID) ∧
    (savecob fanTri false quadMesh).1 ≠ [] := by
  refine ⟨rfl, rfl, ?_⟩
  intro h
  have a : (savecob fanTri false quadMesh).1.get? 0 = some (Tok.u32 COB_FILE_ID) := rfl
  rw [h] at a
  simp at a

/-- C6 amended: a mesh with a non-triangle tessface makes the export
invoke the external triangulator even when triangulation was not
requested; provided the triangulated result is all triangles (the
collaborator's postcondition) with u32-range indices and counts, the
export SUCCEEDS — `MalformedMesh` only occurs for faces still failing
the triangle check at write time. -/
theorem c6_auto_triangulates (tri : CobMesh → CobMesh) (m : CobMesh)
    (hq : m.tessfaces.any (fun f => f.vertices.length != 3) = true)
    (ht : ∀ f ∈ (tri m).tessfaces, f.vertices.length = 3)
    (hidx : ∀ f ∈ (tri m).tessfaces, ∀ i ∈ f.vertices, i < 2 ^ 32)
    (hv : (tri m).vertices.length < 2 ^ 32) (hc : (tri m).tessfaces.length < 2 ^ 32) :
    (savecob tri false m).2 = none := by
  have hmeq : (if (false || m.tessfaces.any fun f => f.vertices.length != 3) = true
      then tri m else m) = tri m := by
    rw [Bool.false_or, hq]
    simp
  rw [savecob_eq_of_counts tri false m (tri m) hmeq hv hc]
  rw [writeCobFaces_ok _ _ ht hidx]
  rfl

theorem c6_auto_triangulates_witness : (savecob fanTri false quadMesh).2 = none :=
  c6_auto_triangulates fanTri quadMesh (by decide) (by decide) (by decide)
    (by decide) (by decide)

theorem c7_witness :
    (processCorner (processCorners (processCorner emptyVerts cornerW).1 []).1 cornerW).2 =
      (processCorner emptyVerts cornerW).2 :=
  c7_dedup_idempotent emptyVerts WF_emptyVerts cornerW cornerW [] rfl rfl rfl rfl

theorem c8_witness :
    (processCorner (processCorners (processCorner emptyVerts cornerW).1 []).1 cornerX).2 ≠
      (processCorner emptyVerts cornerW).2 :=
  c8_dedup_separation emptyVerts WF_emptyVerts Disj_emptyVerts cornerW cornerX []
    (by decide)
